import Mathlib

set_option maxRecDepth 8192

/-!
Verification of the assessment-client validation-and-transformation pipeline.

This file embeds, as executable Lean definitions, the pure data-processing
core of the repository:

* `src/assessment_client/modules/validation.py`
  (`clean_text`, `normalize_spaces`, `drop_rows_with_nan`,
  `validate_competency_data`);
* `src/assessment_client/modules/processing.py`
  (`safe_value`, the grouping loop of `process_competency_file`,
  `df_from_files`, the per-category processors and `process_all_inputs`).

Spreadsheet cells are embedded as `Option String`: `none` is a missing value
(pandas `NaN`), `some s` a string cell.  `fillna('')`/`astype(str)` become
`Option.getD ""`; pandas boolean masks become list filters; raising becomes
`Except.error`.  String helpers (splitting, whitespace collapsing, `replace`)
are implemented by structural recursion on the character list so that every
definition evaluates inside the kernel.  The statements proved below are the
frozen claims about this pipeline.
-/

/-- Whitespace as matched by Python's `\s` (and `str.strip`) on `str` inputs:
the ASCII whitespace/control separators and the Unicode space characters. -/
def isPySpace (c : Char) : Bool :=
  c.toNat ∈ [9, 10, 11, 12, 13, 28, 29, 30, 31, 32,
    0x85, 0xa0, 0x1680,
    0x2000, 0x2001, 0x2002, 0x2003, 0x2004, 0x2005, 0x2006, 0x2007,
    0x2008, 0x2009, 0x200a, 0x2028, 0x2029, 0x202f, 0x205f, 0x3000]

/-- Python `str.strip()`: remove leading and trailing whitespace. -/
def pyStrip (s : String) : String :=
  String.mk (((s.data.dropWhile isPySpace).reverse.dropWhile isPySpace).reverse)

/-- Whitespace-separated words of a character list (`str.split()` with no
separator argument: runs of whitespace separate, empty words do not occur). -/
def pyWordsAux (cur : List Char) : List Char → List String
  | [] => if cur.isEmpty then [] else [String.mk cur.reverse]
  | c :: cs =>
    if isPySpace c then
      if cur.isEmpty then pyWordsAux [] cs
      else String.mk cur.reverse :: pyWordsAux [] cs
    else pyWordsAux (c :: cur) cs

/-- `validation.normalize_spaces`: `re.sub(r'\s+', ' ', str(text)).strip()` —
collapse every whitespace run to one space and strip the ends; equivalently
the whitespace-separated words joined by single spaces.  The `None` input
branch is the `none` cell handled by callers via `Option.getD ""`. -/
def normalize_spaces (s : String) : String :=
  " ".intercalate (pyWordsAux [] s.data)

/-- Python `str.replace('_x000D_', '')`: remove every (left-to-right,
non-overlapping) occurrence of the export artifact. -/
def stripX000D : List Char → List Char
  | '_' :: 'x' :: '0' :: '0' :: '0' :: 'D' :: '_' :: rest => stripX000D rest
  | c :: rest => c :: stripX000D rest
  | [] => []

/-- `validation.clean_text`: `normalize_spaces` then removal of the
spreadsheet-export artifact `_x000D_`. -/
def clean_text (s : String) : String :=
  String.mk (stripX000D (normalize_spaces s).data)

/-- Split a character list at every occurrence of a separator character,
keeping empty parts (Python `str.split(sep)` for a one-character `sep`). -/
def splitChAux (sep : Char) (cur : List Char) : List Char → List (List Char)
  | [] => [cur.reverse]
  | c :: cs =>
    if c = sep then cur.reverse :: splitChAux sep [] cs
    else splitChAux sep (c :: cur) cs

/-- Python `value.split(',')` on a string. -/
def pySplitComma (s : String) : List String :=
  (splitChAux ',' [] s.data).map String.mk

/-- Python `value.split(';\n')`: split at every semicolon-newline pair. -/
def splitSemiNlAux (cur : List Char) : List Char → List String
  | ';' :: '\n' :: cs => String.mk cur.reverse :: splitSemiNlAux [] cs
  | c :: cs => splitSemiNlAux (c :: cur) cs
  | [] => [String.mk cur.reverse]

/-- Python `value.split(';\n')` on a string. -/
def pySplitSemiNl (s : String) : List String := splitSemiNlAux [] s.data

/-- Python `ch in s` for a single character. -/
def strContains (s : String) (c : Char) : Bool := s.data.contains c

/-- `processing.safe_value` on a string-valued cell with a string default:
`None`/NaN cells and whitespace-only strings give the default, any other
string is returned unchanged. -/
def safe_value (v : Option String) (default : String) : String :=
  match v with
  | none => default
  | some s => if pyStrip s = "" then default else s

/-- How a cell prints inside a Python f-string: a NaN cell prints as `nan`. -/
def pyShow (v : Option String) : String := v.getD "nan"

/-- First-seen deduplication with an explicit seen accumulator
(pandas `Series.unique` keeps the first occurrence of each value). -/
def firstSeenAux (seen : List String) : List String → List String
  | [] => []
  | n :: ns =>
    if seen.contains n then firstSeenAux seen ns
    else n :: firstSeenAux (n :: seen) ns

/-- Distinct values of a list in first-occurrence order. -/
def firstSeen (l : List String) : List String := firstSeenAux [] l

/-- Lexicographic ≤ on character lists by code point (Python string order). -/
def cpLe : List Char → List Char → Bool
  | [], _ => true
  | _ :: _, [] => false
  | a :: as, b :: bs =>
    if a.toNat < b.toNat then true
    else if a.toNat = b.toNat then cpLe as bs
    else false

/-- Python string comparison `a <= b` (code-point lexicographic). -/
def strLe (a b : String) : Bool := cpLe a.data b.data

/-- Insert into a ≤-sorted list of strings (code-point order, as Python). -/
def insSorted (a : String) : List String → List String
  | [] => [a]
  | b :: bs => if strLe a b then a :: b :: bs else b :: insSorted a bs

/-- Python `sorted` on strings: sort ascending by code-point order. -/
def sortStrings : List String → List String
  | [] => []
  | a :: as => insSorted a (sortStrings as)

/-- A value of Python type `float` as far as this pipeline observes it:
NaN, the two infinities, or an exact rational written as an (unnormalized)
integer numerator over a power-of-ten denominator. -/
inductive PyFloat
  | nan
  | inf
  | ninf
  | val (num : Int) (den : Nat)
deriving DecidableEq, Repr

/-- ASCII lower-casing of one character (for `float()`'s case-insensitive
`inf`/`nan` spellings and the exponent marker). -/
def lowerAscii (c : Char) : Char :=
  if 65 ≤ c.toNat ∧ c.toNat ≤ 90 then Char.ofNat (c.toNat + 32) else c

/-- Is the character an ASCII digit. -/
def isDigitCh (c : Char) : Bool := 48 ≤ c.toNat ∧ c.toNat ≤ 57

/-- The natural number denoted by a digit list (most significant first). -/
def digitsToNat (l : List Char) : Nat :=
  l.foldl (fun n c => n * 10 + (c.toNat - 48)) 0

/-- Mantissa of a float literal — digits with at most one decimal point and
at least one digit somewhere — as numerator and denominator. -/
def parseMantissa (l : List Char) : Option (Nat × Nat) :=
  match splitChAux '.' [] l with
  | [ip] =>
    if ip ≠ [] ∧ ip.all isDigitCh then some (digitsToNat ip, 1) else none
  | [ip, fp] =>
    if (ip ≠ [] ∨ fp ≠ []) ∧ ip.all isDigitCh ∧ fp.all isDigitCh then
      some (digitsToNat (ip ++ fp), 10 ^ fp.length)
    else none
  | _ => none

/-- Exponent of a float literal: optional sign and a nonempty digit run. -/
def parseExp (l : List Char) : Option Int :=
  let (sgn, ds) : Int × List Char :=
    match l with
    | '+' :: r => (1, r)
    | '-' :: r => (-1, r)
    | r => (1, r)
  if ds ≠ [] ∧ ds.all isDigitCh then some (sgn * (digitsToNat ds : Int)) else none

/-- Scale a numerator/denominator pair by a signed power of ten. -/
def scalePow10 (nd : Nat × Nat) (k : Int) : Nat × Nat :=
  if 0 ≤ k then (nd.1 * 10 ^ k.toNat, nd.2) else (nd.1, nd.2 * 10 ^ (-k).toNat)

/-- Python `float(s)` on a string argument (modulo digit-group underscores,
which this data never uses): optional surrounding whitespace and sign, then
`nan`, `inf`/`infinity` or a decimal literal with an optional exponent;
any other string raises, embedded as `none`. -/
def pyFloat (s : String) : Option PyFloat :=
  let t := (pyStrip s).data.map lowerAscii
  let (neg, body) : Bool × List Char :=
    match t with
    | '+' :: r => (false, r)
    | '-' :: r => (true, r)
    | r => (false, r)
  if body = "nan".data then some PyFloat.nan
  else if body = "inf".data ∨ body = "infinity".data then
    some (if neg then PyFloat.ninf else PyFloat.inf)
  else
    let signed : Nat × Nat → PyFloat := fun nd =>
      PyFloat.val (if neg then -(nd.1 : Int) else (nd.1 : Int)) nd.2
    match splitChAux 'e' [] body with
    | [m] => (parseMantissa m).map signed
    | [m, e] => do
      let q ← parseMantissa m
      let k ← parseExp e
      pure (signed (scalePow10 q k))
    | _ => none

/-- The weight captured from a competency row: `float(row.get("weight", 50.0))`
with the 50.0 fallback when the conversion raises.  A NaN cell converts to
NaN (no exception), so only an unparsable string falls back. -/
def weightOf (w : Option String) : PyFloat :=
  match w with
  | none => PyFloat.nan
  | some s => (pyFloat s).getD (PyFloat.val 50 1)

/-- A pandas DataFrame as `drop_rows_with_nan` observes one: column labels
and rows of cells aligned with them (`none` = NaN).  The index is the
positional `RangeIndex` a fresh `pd.read_excel` produces. -/
structure DFrame where
  cols : List String
  rows : List (List (Option String))
deriving DecidableEq, Repr

/-- `row[col]` on a labeled row: the cell under the column label, `none` when
the label is absent or the row is ragged. -/
def getCell (cols : List String) (row : List (Option String)) (c : String) :
    Option String :=
  match cols.indexOf? c with
  | none => none
  | some i => (row.get? i).join

/-- The required columns whose cell is NaN in the row (`pd.isna(row[col])`). -/
def nanColumns (cols : List String) (required : List String)
    (row : List (Option String)) : List String :=
  required.filter (fun c => getCell cols row c = none)

/-- The `(index, nan_columns)` pairs `drop_rows_with_nan` collects. -/
def rowsToDrop (df : DFrame) (required : List String) :
    List (Nat × List String) :=
  df.rows.enum.filterMap (fun p =>
    let nc := nanColumns df.cols required p.2
    if nc = [] then none else some (p.1, nc))

/-- The warning `drop_rows_with_nan` emits for one dropped row: the 1-indexed
spreadsheet row number (`idx + 2`, accounting for the header row) and the
offending columns. -/
def dropWarning (datasetName : String) (excelRowNumber : Nat)
    (nanCols : List String) : String :=
  datasetName ++ ": строка " ++ Nat.repr excelRowNumber
    ++ " удалена из-за NaN в колонках: " ++ ", ".intercalate nanCols

/-- `validation.drop_rows_with_nan`.  Fails when a required column is absent,
naming the missing columns; otherwise returns the `st.warning` diagnostics
(one per dropped row) and the table with the collected indices dropped and
the index reset. -/
def drop_rows_with_nan (df : DFrame) (required : List String)
    (datasetName : String) : Except String (List String × DFrame) :=
  let missing := required.filter (fun c => ¬ df.cols.contains c)
  if missing ≠ [] then
    Except.error (datasetName ++ ": отсутствуют обязательные колонки: "
      ++ ", ".intercalate missing)
  else
    let toDrop := rowsToDrop df required
    if toDrop = [] then Except.ok ([], df)
    else
      let warnings := toDrop.map (fun p => dropWarning datasetName (p.1 + 2) p.2)
      let keptRows := (df.rows.enum.filter
        (fun p => ¬ (toDrop.map Prod.fst).contains p.1)).map Prod.snd
      Except.ok (warnings, ⟨df.cols, keptRows⟩)

deriving instance DecidableEq for Except

/-- The competency-matrix table as `validate_competency_data` observes it:
whether the `competency` column exists, and its cells when it does.  The
validator consults no other matrix column. -/
structure MatrixTable where
  hasCompetency : Bool
  competencyCol : List (Option String)
deriving DecidableEq, Repr

/-- One answers-table row as the validator observes it: the `Email` cell and
the `Компетенции` cell. -/
structure QARow where
  email : Option String
  komp : Option String
deriving DecidableEq, Repr

/-- The answers table as `validate_competency_data` observes it.  `hasKomp`
records whether the `Компетенции` column exists; the `Email` column is always
present — every caller sanitizes the answers table with `Email` among the
required columns before validating, and the source would stop with a
`KeyError` on its `df_qa.loc[..., ['Email', ...]]` lookup otherwise. -/
structure QATable where
  hasKomp : Bool
  rows : List QARow
deriving DecidableEq, Repr

/-- The normalized matrix competency-name series (`fillna('') → astype(str) →
normalize_spaces`), or the empty fallback series when the column is absent. -/
def matrixNames (mt : MatrixTable) : List String :=
  if mt.hasCompetency then
    mt.competencyCol.map (fun c => normalize_spaces (c.getD ""))
  else []

/-- The normalized answers `Компетенции` series, or the empty fallback series
when the column is absent. -/
def qaSeries (qt : QATable) : List String :=
  if qt.hasKomp then qt.rows.map (fun r => normalize_spaces (r.komp.getD ""))
  else []

/-- Every competency name referenced by the answers table: each non-empty
normalized cell split on commas, parts stripped, empty parts dropped
(duplicates kept; the source accumulates them into a set). -/
def qaCompetencyNames (qt : QATable) : List String :=
  (qaSeries qt).flatMap (fun v =>
    if v = "" then []
    else ((pySplitComma v).map pyStrip).filter (· ≠ ""))

/-- The non-empty normalized matrix names (the source's `matrix_name_set`). -/
def matrixNameSet (mt : MatrixTable) : List String :=
  (matrixNames mt).filter (· ≠ "")

/-- The sorted distinct answers references that are absent from the matrix
(the source's `missing_in_matrix = sorted(qa_set - matrix_set)`). -/
def missingInMatrix (mt : MatrixTable) (qt : QATable) : List String :=
  sortStrings (firstSeen
    ((qaCompetencyNames qt).filter (fun n => ¬ (matrixNameSet mt).contains n)))

/-- Row labels (`idx + 2`, capped at 5) of the mask hits, as printed. -/
def maskRowNumbers (mask : List (Nat × String)) : String :=
  ", ".intercalate ((mask.take 5).map (fun p => Nat.repr (p.1 + 2)))

/-- The offending distinct values of a mask, capped at 5 with an ellipsis. -/
def offendingValues (vals : List String) : String :=
  ", ".intercalate (vals.take 5) ++ (if vals.length > 5 then " ..." else "")

/-- The violations `validate_competency_data` records against the matrix
names: the missing-column message, or the comma, parenthesis and
empty-after-normalization checks in order. -/
def matrixNameErrors (mt : MatrixTable) : List String :=
  if mt.hasCompetency then
    let names := mt.competencyCol.map (fun c => normalize_spaces (c.getD ""))
    let commaMask := names.enum.filter (fun p => strContains p.2 ',')
    let commaErrs :=
      if commaMask = [] then []
      else ["Матрица компетенций, строки " ++ maskRowNumbers commaMask
        ++ ": запрещены запятые в названии. Исправьте: "
        ++ offendingValues (firstSeen (commaMask.map Prod.snd))]
    let parenMask := names.enum.filter
      (fun p => strContains p.2 '(' ∨ strContains p.2 ')')
    let parenErrs :=
      if parenMask = [] then []
      else ["Матрица компетенций, строки " ++ maskRowNumbers parenMask
        ++ ": уберите текст в скобках из 'competency'. Найдены: "
        ++ offendingValues (firstSeen (parenMask.map Prod.snd))]
    let emptyMask := names.enum.filter (fun p => p.2 = "")
    let emptyErrs :=
      if emptyMask = [] then []
      else ["Матрица компетенций, строки " ++ maskRowNumbers emptyMask
        ++ ": пустые значения в колонке 'competency'."]
    commaErrs ++ parenErrs ++ emptyErrs
  else ["В матрице компетенций отсутствует колонка 'competency'."]

/-- The violations recorded against the answers `Компетенции` column: the
missing-column message, or the parenthesis check with its `Email: value`
examples (raw cell values, first 5, ellipsis beyond). -/
def qaRefErrors (qt : QATable) : List String :=
  if qt.hasKomp then
    let offending := qt.rows.filter
      (fun r =>
        let v := normalize_spaces (r.komp.getD "")
        strContains v '(' ∨ strContains v ')')
    if offending = [] then []
    else
      let details := "; ".intercalate ((offending.take 5).map
          (fun r => "Email " ++ pyShow r.email ++ ": " ++ pyShow r.komp))
        ++ (if offending.length > 5 then " ..." else "")
      ["Уберите текст в скобках в колонке 'Компетенции' таблицы ответов. Примеры: "
        ++ details]
  else ["В таблице ответов отсутствует колонка 'Компетенции'."]

/-- The message listing the answers references absent from the matrix. -/
def missingRefMessage (mt : MatrixTable) (qt : QATable) : String :=
  "В таблице ответов найдены компетенции без соответствий в матрице: "
    ++ ", ".intercalate (missingInMatrix mt qt)

/-- The cross-reference violations: one aggregate message when some answers
reference is absent from the matrix. -/
def missingRefErrors (mt : MatrixTable) (qt : QATable) : List String :=
  if missingInMatrix mt qt = [] then [] else [missingRefMessage mt qt]

/-- All violations `validate_competency_data` collects, in recording order. -/
def validationErrors (mt : MatrixTable) (qt : QATable) : List String :=
  matrixNameErrors mt ++ qaRefErrors qt ++ missingRefErrors mt qt

/-- `validation.validate_competency_data`, translated monolithically in the
order of the source: the `errors` list starts empty, the matrix-name checks
(or the missing-column message), the answers parenthesis check (or its
missing-column message) and the cross-reference check append to it in turn,
and one `ValueError` with the newline-joined messages is raised at the end
when any violation was recorded. -/
def validate_competency_data (mt : MatrixTable) (qt : QATable) :
    Except String Unit :=
  let (errs1, mNames) :=
    if mt.hasCompetency then
      let names := mt.competencyCol.map (fun c => normalize_spaces (c.getD ""))
      let commaMask := names.enum.filter (fun p => strContains p.2 ',')
      let commaErrs :=
        if commaMask = [] then []
        else ["Матрица компетенций, строки " ++ maskRowNumbers commaMask
          ++ ": запрещены запятые в названии. Исправьте: "
          ++ offendingValues (firstSeen (commaMask.map Prod.snd))]
      let parenMask := names.enum.filter
        (fun p => strContains p.2 '(' ∨ strContains p.2 ')')
      let parenErrs :=
        if parenMask = [] then []
        else ["Матрица компетенций, строки " ++ maskRowNumbers parenMask
          ++ ": уберите текст в скобках из 'competency'. Найдены: "
          ++ offendingValues (firstSeen (parenMask.map Prod.snd))]
      let emptyMask := names.enum.filter (fun p => p.2 = "")
      let emptyErrs :=
        if emptyMask = [] then []
        else ["Матрица компетенций, строки " ++ maskRowNumbers emptyMask
          ++ ": пустые значения в колонке 'competency'."]
      (commaErrs ++ parenErrs ++ emptyErrs, names)
    else (["В матрице компетенций отсутствует колонка 'competency'."], [])
  let (errs2, series) :=
    if qt.hasKomp then
      let offending := qt.rows.filter
        (fun r =>
          let v := normalize_spaces (r.komp.getD "")
          strContains v '(' ∨ strContains v ')')
      let parenErrs :=
        if offending = [] then []
        else
          let details := "; ".intercalate ((offending.take 5).map
              (fun r => "Email " ++ pyShow r.email ++ ": " ++ pyShow r.komp))
            ++ (if offending.length > 5 then " ..." else "")
          ["Уберите текст в скобках в колонке 'Компетенции' таблицы ответов. Примеры: "
            ++ details]
      (parenErrs, qt.rows.map (fun r => normalize_spaces (r.komp.getD "")))
    else (["В таблице ответов отсутствует колонка 'Компетенции'."], [])
  let qaNames := series.flatMap (fun v =>
    if v = "" then []
    else ((pySplitComma v).map pyStrip).filter (· ≠ ""))
  let missing := sortStrings (firstSeen
    (qaNames.filter (fun n => ¬ (mNames.filter (· ≠ "")).contains n)))
  let errs3 :=
    if missing = [] then []
    else ["В таблице ответов найдены компетенции без соответствий в матрице: "
      ++ ", ".intercalate missing]
  let errors := errs1 ++ errs2 ++ errs3
  if errors = [] then Except.ok () else Except.error ("\n".intercalate errors)

/-- One indicator entry of the built competency matrix (`processing.py`,
grouping loop): name/description normalized, the four level cells stripped
(`str(row[lvl]).strip()`), NaN levels becoming `""`. -/
structure Indicator where
  name : String
  description : String
  level_0 : String
  level_1 : String
  level_2 : String
  level_3 : String
deriving DecidableEq, Repr

/-- One entry of the built competency matrix, matching the `Competency`
payload dict: the normalized name, the normalized description of the creating
row, the captured weight and the grouped indicators. -/
structure Competency where
  competency : String
  competency_description : String
  weight : PyFloat
  indicators : List Indicator
deriving DecidableEq, Repr

/-- One row of the competency-matrix sheet as the grouping loop of
`process_competency_file` consumes it (all expected columns present, cells
`none` = NaN). -/
structure CompetencyRow where
  competency : Option String
  competency_description : Option String
  weight : Option String
  indicator_name : Option String
  indicator_description : Option String
  level_0 : Option String
  level_1 : Option String
  level_2 : Option String
  level_3 : Option String
deriving DecidableEq, Repr

/-- The column normalization performed before the grouping loop:
`competency` and `competency_description` are `fillna('') → astype(str) →
normalize_spaces`. -/
def normalizeCompRow (r : CompetencyRow) : CompetencyRow :=
  { r with
    competency := some (normalize_spaces (r.competency.getD "")),
    competency_description := some (normalize_spaces (r.competency_description.getD "")) }

/-- One level cell of an indicator: `str(row[lvl]).strip()` when the cell is
not NaN, `""` otherwise. -/
def levelOf (c : Option String) : String :=
  match c with
  | none => ""
  | some s => pyStrip s

/-- The indicator entry built from one row.  `row.get("indicator_name", "")`
reads the cell (the column is present in the sheet), and `str` of a NaN cell
is the string `"nan"` — hence `pyShow`. -/
def indicatorOf (r : CompetencyRow) : Indicator :=
  { name := normalize_spaces (pyShow r.indicator_name),
    description := normalize_spaces (pyShow r.indicator_description),
    level_0 := levelOf r.level_0,
    level_1 := levelOf r.level_1,
    level_2 := levelOf r.level_2,
    level_3 := levelOf r.level_3 }

/-- Append one indicator to the first matrix entry bearing the name.  The
source keeps a `name → index` dict into the list; entry names are unique
(an entry is created only when its name is not yet in the dict), so updating
the first entry with the name is the same update. -/
def appendIndicator (nm : String) (ind : Indicator) :
    List Competency → List Competency
  | [] => []
  | c :: cs =>
    if c.competency = nm then
      { c with indicators := c.indicators ++ [ind] } :: cs
    else c :: appendIndicator nm ind cs

/-- One iteration of the grouping loop of `process_competency_file`: skip
rows with an empty normalized name; append an indicator to the seen entry, or
create a new entry capturing description and weight from this first row. -/
def compStep (acc : List Competency) (r : CompetencyRow) : List Competency :=
  let nm := r.competency.getD ""
  if nm = "" then acc
  else if acc.any (fun c => c.competency = nm) then
    appendIndicator nm (indicatorOf r) acc
  else
    acc ++ [{ competency := nm,
              competency_description := r.competency_description.getD "",
              weight := weightOf r.weight,
              indicators := [indicatorOf r] }]

/-- The in-memory part of `processing.process_competency_file`: the column
normalization followed by the grouping loop, applied to the sanitized
competency table. -/
def process_competency_rows (rows : List CompetencyRow) : List Competency :=
  (rows.map normalizeCompRow).foldl compStep []

/-- The normalized competency name of a source row. -/
def normName (r : CompetencyRow) : String :=
  normalize_spaces (r.competency.getD "")

/-- One row of the participants-results sheet ("Результаты участников") with
the columns the pipeline touches.  `poz` is the `Позиция` column of the
uploaded sheet; it is not among `cols_answers`, so `df1[cols_answers]` drops
it before the merge.  The `Email` cell is kept as a string: pandas equality
never matches a NaN key, so NaN-email rows belong to no participant group and
the per-participant claims quantify over string emails. -/
structure AnswersRow where
  fio : Option String
  email : String
  chapter : Option String
  taskName : Option String
  sentDate : Option String
  answer : Option String
  poz : Option String
deriving DecidableEq, Repr

/-- One row of the tasks sheet, the five selected columns. -/
structure TaskRow where
  taskName : Option String
  question : Option String
  evalType : Option String
  competencies : Option String
  indicators : Option String
deriving DecidableEq, Repr

/-- The uploaded tasks sheet: its header labels (checked against the required
column list) and its rows. -/
structure TasksTable where
  cols : List String
  rows : List TaskRow
deriving DecidableEq, Repr

/-- One row of the merged table: the six selected answer columns joined with
the task metadata on task name (`Позиция` is not carried — it was not among
the selected answer columns). -/
structure MergedRow where
  fio : Option String
  email : String
  chapter : Option String
  taskName : String
  sentDate : Option String
  answer : Option String
  question : Option String
  evalType : Option String
  competencies : Option String
  indicators : Option String
deriving DecidableEq, Repr

/-- The required tasks-sheet columns (`cols_tasks` in `df_from_files`). -/
def colsTasks : List String :=
  ["Название задания", "Вопрос", "Тип оценки", "Компетенции", "Индикаторы"]

/-- The merged row built from one answer row and one matching task row. -/
def mkMerged (a : AnswersRow) (k : String) (t : TaskRow) : MergedRow :=
  { fio := a.fio, email := a.email, chapter := a.chapter, taskName := k,
    sentDate := a.sentDate, answer := a.answer, question := t.question,
    evalType := t.evalType, competencies := t.competencies,
    indicators := t.indicators }

/-- The specific diagnostic `df_from_files` raises when the inner join on
task name is empty. -/
def joinEmptyMessage : String :=
  "Не удалось сопоставить задания между файлами: ни одно значение в столбце "
    ++ "\"Название задания\" из листа \"Результаты участников\" не совпало со значениями "
    ++ "в файле с заданиями. Проверьте, что названия заданий совпадают (учитывая пробелы, "
    ++ "опечатки и регистр букв) в обоих файлах."

/-- The inner join of the answers rows with the (already `dropna`-filtered)
task rows on task name: left-row-major, as pandas `merge(..., how="inner")`
with `sort=False` keeps the order of the left keys. -/
def innerJoin (answers : List AnswersRow) (tasksFiltered : List TaskRow) :
    List MergedRow :=
  answers.flatMap (fun a =>
    match a.taskName with
    | none => []
    | some k =>
      (tasksFiltered.filter (fun t => t.taskName = some k)).map (mkMerged a k))

/-- `processing.df_from_files` after the two sheets are read: selects the
answer columns, checks the required tasks columns (failing with every missing
name), drops task rows with a NaN task name, inner-joins on task name, and
raises the targeted diagnostic when the join is empty. -/
def df_from_files (answers : List AnswersRow) (tasks : TasksTable) :
    Except String (List MergedRow) :=
  let missingTaskCols := colsTasks.filter (fun c => ¬ tasks.cols.contains c)
  if missingTaskCols ≠ [] then
    Except.error ("The tasks Excel file is missing required column(s): "
      ++ ", ".intercalate missingTaskCols)
  else
    let tasksFiltered := tasks.rows.filter (fun t => t.taskName ≠ none)
    let merged := innerJoin answers tasksFiltered
    if merged = [] then Except.error joinEmptyMessage
    else Except.ok merged

/-- One entry of the `statements` payload (`process_statement_inputs`): the
competency reference is kept as a raw string. -/
structure StatementEntry where
  question : String
  eval_type : String
  competency : String
  answer : String
deriving DecidableEq, Repr

/-- One entry of the four list-splitting category payloads
(`process_open_question_inputs`, `process_dilemma_inputs`,
`process_mini_case_inputs`, `process_big_case_inputs`): the prompt text, the
answer, and the competency/indicator reference lists. -/
structure CaseEntry where
  text : String
  answer : String
  competencies : List String
  indicators : List String
deriving DecidableEq, Repr

/-- The comma-separated competency list of a merged row:
`[c.strip() for c in str(v).split(',') if c.strip()] if v else []` where `v`
is `safe_value(cell, "")`. -/
def competenciesListOf (cell : Option String) : List String :=
  let v := safe_value cell ""
  if v = "" then [] else ((pySplitComma v).map pyStrip).filter (· ≠ "")

/-- The `;`+newline-separated indicator list of a merged row. -/
def indicatorsListOf (cell : Option String) : List String :=
  let v := safe_value cell ""
  if v = "" then [] else ((pySplitSemiNl v).map pyStrip).filter (· ≠ "")

/-- `process_statement_inputs` on one participant's statements bucket. -/
def process_statement_inputs (rows : List MergedRow) : List StatementEntry :=
  rows.map (fun r =>
    { question := safe_value r.question "",
      eval_type := safe_value r.evalType "",
      competency := safe_value r.competencies "",
      answer := safe_value r.answer "" })

/-- The shared shape of the four case-style processors: prompt, answer and
the two split lists. -/
def caseEntryOf (r : MergedRow) : CaseEntry :=
  { text := safe_value r.question "",
    answer := safe_value r.answer "",
    competencies := competenciesListOf r.competencies,
    indicators := indicatorsListOf r.indicators }

/-- `process_dilemma_inputs` / `process_mini_case_inputs` /
`process_big_case_inputs` / `process_open_question_inputs` on one
participant's bucket: one entry per row. -/
def process_case_inputs (rows : List MergedRow) : List CaseEntry :=
  rows.map caseEntryOf

/-- The per-participant `CombinedAssessmentRequest` payload. -/
structure CombinedRequest where
  user_email : String
  user_name : String
  position_title : String
  assessment_info : String
  webhook_url : String
  competency_matrix : Option (List Competency)
  assessment_type : String
  open_questions : Option (List CaseEntry)
  statements : Option (List StatementEntry)
  dilemmas : Option (List CaseEntry)
  mini_cases : Option (List CaseEntry)
  big_cases : Option (List CaseEntry)
deriving DecidableEq, Repr

/-- The per-email column updates of `process_all_inputs`: chapter labels
normalized, answers cleaned. -/
def normalizeMergedRow (r : MergedRow) : MergedRow :=
  { r with
    chapter := some (normalize_spaces (r.chapter.getD "")),
    answer := some (clean_text (r.answer.getD "")) }

/-- The payload `process_all_inputs` builds for one participant from that
participant's merged rows (`first` is the group's first row).
`first_row.get("Позиция")` looks the label up in the merged row, whose
columns do not include `Позиция`, so it yields `None` and
`safe_value(None, "")` is the empty string. -/
def buildOne (email : String) (first : MergedRow) (rows : List MergedRow)
    (matrix : Option (List Competency)) (info : String) (atype : String) :
    CombinedRequest :=
  let user_name := safe_value first.fio email
  let position_title := safe_value none ""
  let rowsN := rows.map normalizeMergedRow
  let dfStatements := rowsN.filter (fun r => r.chapter = some "Быстрая самооценка")
  let dfOpen := rowsN.filter (fun r => r.chapter = some "Открытые вопросы")
  let dfDilemmas := rowsN.filter (fun r => r.chapter = some "Дилеммы")
  let dfMini := rowsN.filter (fun r => r.chapter = some "Мини кейсы")
  let dfBig := rowsN.filter (fun r => r.chapter = some "Большие кейсы")
  { user_email := email,
    user_name := user_name,
    position_title := position_title,
    assessment_info := info,
    webhook_url := "https://ntfy.sh/assessment",
    competency_matrix := matrix,
    assessment_type := atype,
    open_questions :=
      if dfOpen = [] then none else some (process_case_inputs dfOpen),
    statements :=
      if dfStatements = [] then none else some (process_statement_inputs dfStatements),
    dilemmas :=
      if dfDilemmas = [] then none else some (process_case_inputs dfDilemmas),
    mini_cases :=
      if dfMini = [] then none else some (process_case_inputs dfMini),
    big_cases :=
      if dfBig = [] then none else some (process_case_inputs dfBig) }

/-- The per-email loop of `process_all_inputs`: one payload per distinct
email in first-seen order, each built from that email's merged rows. -/
def buildPayloads (merged : List MergedRow)
    (matrix : Option (List Competency)) (info : String) (atype : String) :
    List (String × CombinedRequest) :=
  (firstSeen (merged.map (·.email))).filterMap (fun e =>
    match merged.filter (fun r => r.email = e) with
    | [] => none
    | first :: rest => some (e, buildOne e first (first :: rest) matrix info atype))

/-- `processing.process_all_inputs` (with the competency matrix already
built, as the source receives it from `process_competency_file`): merge the
two sheets, then assemble one payload per participant email. -/
def process_all_inputs (answers : List AnswersRow) (tasks : TasksTable)
    (matrix : Option (List Competency)) (info : String) (atype : String) :
    Except String (List (String × CombinedRequest)) :=
  (df_from_files answers tasks).map
    (fun merged => buildPayloads merged matrix info atype)

/-- One participant's merged rows bearing a given chapter label (after the
label normalization the assembler performs). -/
def chapterRows (merged : List MergedRow) (e : String) (lbl : String) :
    List MergedRow :=
  (merged.filter (fun r => r.email = e)).filter
    (fun r => normalize_spaces (r.chapter.getD "") = lbl)

/-- The answer rows whose task name occurs among the given task rows (the
answers-side matching subset of the join). -/
def matchingAnswers (answers : List AnswersRow) (tasksFiltered : List TaskRow) :
    List AnswersRow :=
  answers.filter (fun a => tasksFiltered.any (fun t => t.taskName = a.taskName))

/-- The task rows whose task name occurs among the answer rows (the
tasks-side matching subset of the join). -/
def matchingTasks (answers : List AnswersRow) (tasksFiltered : List TaskRow) :
    List TaskRow :=
  tasksFiltered.filter (fun t => answers.any (fun a => a.taskName = t.taskName))

/-- A tasks sheet with all required columns and one definition row. -/
def oneTaskTable : TasksTable :=
  ⟨colsTasks, [⟨some "t1", some "Вопрос 1", some "внешняя", some "К1, К2", some "И1;\nИ2"⟩]⟩

/-- Two answer rows of one participant answering the same task twice. -/
def twoAnswersOneTask : List AnswersRow :=
  [⟨some "Иван", "a@b", some "Дилеммы", some "t1", none, some "ответ 1", none⟩,
   ⟨some "Иван", "a@b", some "Дилеммы", some "t1", none, some "ответ 2", none⟩]

/-- One answer row whose source sheet carries a position title. -/
def positionedAnswers : List AnswersRow :=
  [⟨some "Иван", "a@b", some "Дилеммы", some "t1", none, some "ответ", some "Менеджер"⟩]

/-- Scenario-D tables: the task names differ only in letter case. -/
def lowercaseAnswers : List AnswersRow :=
  [⟨some "Иван", "a@b", some "Дилеммы", some "задача а", none, some "ответ", none⟩]

/-- Scenario-D task sheet with the capitalized task name. -/
def capitalizedTasks : TasksTable :=
  ⟨colsTasks, [⟨some "Задача А", some "Вопрос 1", some "внешняя", some "К1", some "И1"⟩]⟩

/-- A merged row in the dilemmas chapter. -/
def dilemmaRow : MergedRow :=
  ⟨some "Иван", "a@b", some "Дилеммы", "t1", none, some "ответ",
    some "Вопрос 1", some "внешняя", some "К1, К2", some "И1;\nИ2"⟩

/-- A merged table whose one participant has rows only in the dilemmas
chapter. -/
def dilemmaOnlyMerged : List MergedRow := [dilemmaRow]

/-- A merged row whose participant has a whitespace-only display name. -/
def blankNameRow : MergedRow :=
  ⟨some "   ", "w@x", some "Дилеммы", "t1", none, some "ответ",
    some "Вопрос 1", some "внешняя", some "К1", some "И1"⟩

/-- A merged table whose one participant has a whitespace-only display name. -/
def blankNameMerged : List MergedRow := [blankNameRow]

/-- A three-row sanitized competency table: two indicator rows of one
competency and one row with a blank name. -/
def sampleCompetencyRows : List CompetencyRow :=
  [⟨some "Коммуникация", some "описание", some "30", some "Инд1", some "о1",
    some "L0", some "L1", some "L2", some "L3"⟩,
   ⟨some " Коммуникация ", some "другое", some "77", some "Инд2", some "о2",
    some "L0", some "L1", some "L2", some "L3"⟩,
   ⟨some "  ", none, none, none, none, none, none, none, none⟩]

/-- The raw grouping key of the loop: the (already normalized) `competency`
cell, `""` for NaN. -/
def rawCompName (r : CompetencyRow) : String := r.competency.getD ""

/-- Total number of indicators carried by the entries of a matrix that bear
a given competency name. -/
def indLen (out : List Competency) (nm : String) : Nat :=
  ((out.filter (fun c => c.competency = nm)).map
    (fun c => c.indicators.length)).sum

/-- The competency entry the builder produces from `sampleCompetencyRows`. -/
def sampleCompetency : Competency :=
  { competency := "Коммуникация",
    competency_description := "описание",
    weight := PyFloat.val 30 1,
    indicators :=
      [⟨"Инд1", "о1", "L0", "L1", "L2", "L3"⟩,
       ⟨"Инд2", "о2", "L0", "L1", "L2", "L3"⟩] }

/-! ## Shared lemmas -/

theorem mem_insSorted {x a : String} {l : List String} :
    x ∈ insSorted a l ↔ x = a ∨ x ∈ l := by
  induction l with
  | nil => simp [insSorted]
  | cons b bs ih =>
    simp only [insSorted]
    split
    · simp
    · simp only [List.mem_cons, ih]
      tauto

theorem mem_sortStrings {x : String} {l : List String} :
    x ∈ sortStrings l ↔ x ∈ l := by
  induction l with
  | nil => simp [sortStrings]
  | cons a as ih => simp [sortStrings, mem_insSorted, ih]

theorem mem_firstSeenAux {x : String} :
    ∀ (l seen : List String),
      x ∈ firstSeenAux seen l ↔ x ∈ l ∧ seen.contains x = false := by
  intro l
  induction l with
  | nil => intro seen; simp [firstSeenAux]
  | cons n ns ih =>
    intro seen
    simp only [firstSeenAux]
    by_cases h : seen.contains n
    · rw [if_pos h, ih]
      simp only [List.mem_cons]
      constructor
      · rintro ⟨hx, hs⟩; exact ⟨Or.inr hx, hs⟩
      · rintro ⟨rfl | hx, hs⟩
        · rw [h] at hs; cases hs
        · exact ⟨hx, hs⟩
    · rw [if_neg h]
      simp only [List.mem_cons, ih, List.contains_cons, Bool.or_eq_false_iff,
        beq_eq_false_iff_ne, ne_eq]
      constructor
      · rintro (rfl | ⟨hx, _, hs⟩)
        · exact ⟨Or.inl rfl, by simpa using h⟩
        · exact ⟨Or.inr hx, hs⟩
      · rintro ⟨rfl | hx, hs⟩
        · exact Or.inl rfl
        · by_cases hxn : x = n
          · exact Or.inl hxn
          · exact Or.inr ⟨hx, hxn, hs⟩

theorem mem_firstSeen {x : String} {l : List String} :
    x ∈ firstSeen l ↔ x ∈ l := by
  rw [firstSeen, mem_firstSeenAux]
  simp [List.contains]

theorem mem_missingInMatrix {mt : MatrixTable} {qt : QATable} {n : String} :
    n ∈ missingInMatrix mt qt ↔
      n ∈ qaCompetencyNames qt ∧ n ∉ matrixNameSet mt := by
  rw [missingInMatrix, mem_sortStrings, mem_firstSeen, List.mem_filter]
  simp [List.elem_iff, List.contains]

theorem validate_eq_aggregate (mt : MatrixTable) (qt : QATable) :
    validate_competency_data mt qt =
      (if validationErrors mt qt = [] then Except.ok ()
       else Except.error ("\n".intercalate (validationErrors mt qt))) := by
  cases mt with
  | mk hasC col =>
    cases qt with
    | mk hasK rows => cases hasC <;> cases hasK <;> rfl

/-! ## Claims C1 and C2: the schema validator -/

/-- C2: the schema validator collects all detectable violations — the matrix
comma/parenthesis/empty checks, the answers parenthesis check and the
cross-reference check — before failing; it raises exactly one error whose
message is every violation message newline-joined, and it raises if and only
if at least one violation was recorded. -/
theorem validator_aggregates_all_violations (mt : MatrixTable) (qt : QATable) :
    validationErrors mt qt =
      matrixNameErrors mt ++ qaRefErrors qt ++ missingRefErrors mt qt ∧
    (validate_competency_data mt qt = Except.ok () ↔
      validationErrors mt qt = []) ∧
    (validationErrors mt qt ≠ [] →
      validate_competency_data mt qt =
        Except.error ("\n".intercalate (validationErrors mt qt))) := by
  refine ⟨rfl, ?_, ?_⟩
  · rw [validate_eq_aggregate]
    by_cases h : validationErrors mt qt = []
    · simp [h]
    · simp [h]
  · intro h
    rw [validate_eq_aggregate, if_neg h]

/-- Witness for C2: a matrix with a comma violation and an answers table with
a missing `Компетенции` column produce one error joining both messages. -/
theorem validator_aggregates_all_violations_witness :
    validate_competency_data ⟨true, [some "А,Б"]⟩ ⟨false, []⟩ =
      Except.error ("Матрица компетенций, строки 2: запрещены запятые в названии. Исправьте: А,Б\nВ таблице ответов отсутствует колонка 'Компетенции'.") :=
  ((validator_aggregates_all_violations ⟨true, [some "А,Б"]⟩ ⟨false, []⟩).2.2
    (by decide)).trans (congrArg Except.error (by decide))

/-- C1: when validation succeeds, every competency name referenced in the
answers table (comma-split, normalized, non-empty) occurs among the matrix
names; the missing-names list contains exactly the references absent from the
matrix; and when it is non-empty, validation fails and the aggregate error
carries the message listing those names. -/
theorem answers_references_exist_in_matrix (mt : MatrixTable) (qt : QATable) :
    (validate_competency_data mt qt = Except.ok () →
      ∀ n ∈ qaCompetencyNames qt, n ∈ matrixNameSet mt) ∧
    (∀ n, n ∈ missingInMatrix mt qt ↔
      n ∈ qaCompetencyNames qt ∧ n ∉ matrixNameSet mt) ∧
    (missingInMatrix mt qt ≠ [] →
      missingRefMessage mt qt ∈ validationErrors mt qt ∧
      ∃ m, validate_competency_data mt qt = Except.error m) := by
  refine ⟨?_, fun n => mem_missingInMatrix, ?_⟩
  · intro hok n hn
    rw [validate_eq_aggregate] at hok
    by_cases h : validationErrors mt qt = []
    · have h3 : missingRefErrors mt qt = [] := by
        have h' := h
        unfold validationErrors at h'
        exact (List.append_eq_nil.mp h').2
      have hm : missingInMatrix mt qt = [] := by
        by_contra hne
        unfold missingRefErrors at h3
        rw [if_neg hne] at h3
        cases h3
      by_contra hnot
      have hmem : n ∈ missingInMatrix mt qt := mem_missingInMatrix.mpr ⟨hn, hnot⟩
      rw [hm] at hmem
      cases hmem
    · rw [if_neg h] at hok
      cases hok
  · intro hne
    have hmsg : missingRefErrors mt qt = [missingRefMessage mt qt] := by
      unfold missingRefErrors
      rw [if_neg hne]
    constructor
    · unfold validationErrors
      rw [hmsg]
      exact List.mem_append.mpr (Or.inr (List.mem_singleton.mpr rfl))
    · have hnonnil : validationErrors mt qt ≠ [] := by
        intro hnil
        unfold validationErrors at hnil
        rw [hmsg] at hnil
        rcases List.append_eq_nil.mp hnil with ⟨-, h3⟩
        cases h3
      exact ⟨_, by rw [validate_eq_aggregate, if_neg hnonnil]⟩

/-- Witness for C1: the answers reference `Б` is absent from a matrix naming
only `А`, so the aggregate failure carries the missing-names message. -/
theorem answers_references_exist_in_matrix_witness :
    missingRefMessage ⟨true, [some "А"]⟩ ⟨true, [⟨some "e@x", some "Б, А"⟩]⟩ ∈
      validationErrors ⟨true, [some "А"]⟩ ⟨true, [⟨some "e@x", some "Б, А"⟩]⟩ ∧
    ∃ m, validate_competency_data ⟨true, [some "А"]⟩
      ⟨true, [⟨some "e@x", some "Б, А"⟩]⟩ = Except.error m :=
  (answers_references_exist_in_matrix ⟨true, [some "А"]⟩
    ⟨true, [⟨some "e@x", some "Б, А"⟩]⟩).2.2 (by decide)

/-! ## Claim C7: the row sanitizer -/

theorem rowsToDrop_eq (df : DFrame) (required : List String) :
    rowsToDrop df required =
      (df.rows.enum.filter
        (fun p => nanColumns df.cols required p.2 ≠ [])).map
        (fun p => (p.1, nanColumns df.cols required p.2)) := by
  unfold rowsToDrop
  induction df.rows.enum with
  | nil => rfl
  | cons p ps ih =>
    simp only [List.filterMap_cons, List.filter_cons]
    by_cases h : nanColumns df.cols required p.2 = []
    · simp only [h, if_pos rfl, ih]
      simp
    · simp only [if_neg h, ih]
      simp [h]

theorem enumFrom_fst_ge {α : Type} :
    ∀ (l : List α) (n : Nat) (p : Nat × α), p ∈ l.enumFrom n → n ≤ p.1 := by
  intro l n p h
  exact (List.mem_enumFrom h).1

theorem enumFrom_fst_inj {α : Type} :
    ∀ (l : List α) (n : Nat) (p q : Nat × α),
      p ∈ l.enumFrom n → q ∈ l.enumFrom n → p.1 = q.1 → p = q := by
  intro l
  induction l with
  | nil => intro n p q hp; cases hp
  | cons a t ih =>
    intro n p q hp hq hpq
    rcases List.mem_cons.mp hp with rfl | hp'
    · rcases List.mem_cons.mp hq with rfl | hq'
      · rfl
      · have := enumFrom_fst_ge t (n + 1) q hq'
        omega
    · rcases List.mem_cons.mp hq with rfl | hq'
      · have := enumFrom_fst_ge t (n + 1) p hp'
        omega
      · exact ih (n + 1) p q hp' hq' hpq

theorem filter_not_contains_enumFrom {α : Type} (bad : α → Bool)
    (S : List Nat) :
    ∀ (rows : List α) (n : Nat),
      (∀ p ∈ rows.enumFrom n, S.contains p.1 = bad p.2) →
      (((rows.enumFrom n).filter (fun p => ¬ S.contains p.1)).map
        Prod.snd) = rows.filter (fun r => ¬ bad r) := by
  intro rows
  induction rows with
  | nil => intro n _; rfl
  | cons r rs ih =>
    intro n h
    have hhead : S.contains n = bad r :=
      h (n, r) (List.mem_cons_self _ _)
    have htail := ih (n + 1) (fun p hp => h p (List.mem_cons_of_mem _ hp))
    show List.map Prod.snd
      (List.filter _ ((n, r) :: List.enumFrom (n + 1) rs)) = _
    rw [List.filter_cons, List.filter_cons]
    simp only [hhead]
    by_cases hc : (decide ¬ bad r = true) = true
    · rw [if_pos hc, if_pos hc, List.map_cons, htail]
    · rw [if_neg hc, if_neg hc, htail]

theorem rowsToDrop_fst_contains (df : DFrame) (required : List String) :
    ∀ p ∈ df.rows.enum,
      ((rowsToDrop df required).map Prod.fst).contains p.1 =
        (fun r => (nanColumns df.cols required r ≠ [] : Bool)) p.2 := by
  intro p hp
  rw [rowsToDrop_eq, List.map_map]
  have hfst : (Prod.fst ∘ fun p : Nat × List (Option String) =>
      (p.1, nanColumns df.cols required p.2)) = Prod.fst := rfl
  rw [hfst]
  by_cases hb : nanColumns df.cols required p.2 = []
  · simp only [hb, ne_eq, not_true_eq_false, decide_False]
    rw [Bool.eq_false_iff]
    intro hcon
    have hmem := List.elem_iff.mp hcon
    rcases List.mem_map.mp hmem with ⟨q, hq, hq1⟩
    rcases List.mem_filter.mp hq with ⟨hqenum, hqbad⟩
    have : q = p := enumFrom_fst_inj _ 0 q p hqenum hp hq1
    subst this
    rw [hb] at hqbad
    simp at hqbad
  · simp only [ne_eq, hb, not_false_eq_true, decide_True]
    apply List.elem_iff.mpr
    apply List.mem_map.mpr
    exact ⟨p, List.mem_filter.mpr ⟨hp, by simp [hb]⟩, rfl⟩

/-- C7: the row sanitizer fails immediately, naming every missing required
column, when one is absent; otherwise it removes exactly the rows with a NaN
cell in some required column, emits one diagnostic per removed row naming the
header-offset spreadsheet row number (`idx + 2`) and the offending columns,
and returns the surviving rows in their original relative order. -/
theorem sanitizer_drops_exactly_nan_rows (df : DFrame)
    (required : List String) (name : String) :
    (required.filter (fun c => ¬ df.cols.contains c) ≠ [] →
      drop_rows_with_nan df required name = Except.error
        (name ++ ": отсутствуют обязательные колонки: "
          ++ ", ".intercalate (required.filter (fun c => ¬ df.cols.contains c)))) ∧
    (required.filter (fun c => ¬ df.cols.contains c) = [] →
      ∃ warnings out,
        drop_rows_with_nan df required name = Except.ok (warnings, out) ∧
        out.cols = df.cols ∧
        out.rows = df.rows.filter
          (fun r => nanColumns df.cols required r = []) ∧
        warnings = (df.rows.enum.filter
            (fun p => nanColumns df.cols required p.2 ≠ [])).map
          (fun p => dropWarning name (p.1 + 2)
            (nanColumns df.cols required p.2))) := by
  have hfilters : df.rows.filter
        (fun r => ¬ ((nanColumns df.cols required r ≠ [] : Bool)) = true) =
      df.rows.filter (fun r => nanColumns df.cols required r = []) := by
    apply List.filter_congr
    intro r _
    by_cases h : nanColumns df.cols required r = [] <;> simp [h]
  constructor
  · intro h
    unfold drop_rows_with_nan
    rw [if_pos h]
  · intro h
    unfold drop_rows_with_nan
    rw [if_neg (not_ne_iff.mpr h)]
    by_cases hdrop : rowsToDrop df required = []
    · rw [if_pos hdrop]
      rw [rowsToDrop_eq] at hdrop
      have hfilnil : df.rows.enum.filter
          (fun p => (nanColumns df.cols required p.2 ≠ [] : Bool)) = [] := by
        rcases List.map_eq_nil_iff.mp hdrop with h'
        exact h'
      refine ⟨[], df, rfl, rfl, ?_, ?_⟩
      · symm
        apply List.filter_eq_self.mpr
        intro r hr
        have hr' : r ∈ df.rows.enum.map Prod.snd := by
          rw [List.enum_map_snd]
          exact hr
        rcases List.mem_map.mp hr' with ⟨p, hp, rfl⟩
        have := List.filter_eq_nil_iff.mp hfilnil p hp
        simpa using this
      · rw [hfilnil]
        rfl
    · rw [if_neg hdrop]
      refine ⟨_, _, rfl, rfl, ?_, ?_⟩
      · have hkept := filter_not_contains_enumFrom
          (fun r => (nanColumns df.cols required r ≠ [] : Bool))
          ((rowsToDrop df required).map Prod.fst) df.rows 0
          (rowsToDrop_fst_contains df required)
        exact hkept.trans hfilters
      · rw [rowsToDrop_eq, List.map_map]
        rfl

/-- Witness for C7: a table missing one required column fails naming it. -/
theorem sanitizer_drops_exactly_nan_rows_witness :
    drop_rows_with_nan ⟨["a"], [[some "1"]]⟩ ["a", "x"] "DS" =
      Except.error ("DS" ++ ": отсутствуют обязательные колонки: "
        ++ ", ".intercalate (["a", "x"].filter
          (fun c => ¬ (["a"] : List String).contains c))) :=
  (sanitizer_drops_exactly_nan_rows ⟨["a"], [[some "1"]]⟩ ["a", "x"] "DS").1
    (by decide)

/-! ## Claims C4 and C5: the task merger -/

/-- C5: the task merger drops task rows with a missing task name before
joining (filtering them away changes nothing), never returns an empty merged
table, and reports an empty join with the specific whitespace/typo/case
diagnostic. -/
theorem merger_empty_join_diagnostic (answers : List AnswersRow)
    (tasks : TasksTable) :
    df_from_files answers tasks =
      df_from_files answers
        ⟨tasks.cols, tasks.rows.filter (fun t => t.taskName ≠ none)⟩ ∧
    (∀ l, df_from_files answers tasks = Except.ok l → l ≠ []) ∧
    (colsTasks.filter (fun c => ¬ tasks.cols.contains c) = [] →
      innerJoin answers (tasks.rows.filter (fun t => t.taskName ≠ none)) = [] →
      df_from_files answers tasks = Except.error joinEmptyMessage) := by
  refine ⟨?_, ?_, ?_⟩
  · unfold df_from_files
    have hff : (tasks.rows.filter (fun t => t.taskName ≠ none)).filter
        (fun t => t.taskName ≠ none) =
        tasks.rows.filter (fun t => t.taskName ≠ none) := by
      rw [List.filter_filter]
      apply List.filter_congr
      intro t _
      by_cases h : t.taskName = none <;> simp [h]
    rw [hff]
  · intro l hl
    unfold df_from_files at hl
    by_cases hmiss : colsTasks.filter (fun c => ¬ tasks.cols.contains c) ≠ []
    · rw [if_pos hmiss] at hl
      cases hl
    · rw [if_neg hmiss] at hl
      by_cases hempty :
          innerJoin answers (tasks.rows.filter (fun t => t.taskName ≠ none)) = []
      · rw [if_pos hempty] at hl
        cases hl
      · rw [if_neg hempty] at hl
        cases hl
        exact hempty
  · intro hmiss hempty
    unfold df_from_files
    rw [if_neg (not_ne_iff.mpr hmiss), if_pos hempty]

/-- Witness for C5: Scenario D — task names differing only in letter case
yield the empty join and the targeted diagnostic. -/
theorem merger_empty_join_diagnostic_witness :
    df_from_files lowercaseAnswers capitalizedTasks =
      Except.error joinEmptyMessage :=
  (merger_empty_join_diagnostic lowercaseAnswers capitalizedTasks).2.2
    (by decide) (by decide)

theorem matchingTasks_cons_le (a : AnswersRow) (rest : List AnswersRow)
    (tf : List TaskRow) :
    (matchingTasks rest tf).length ≤ (matchingTasks (a :: rest) tf).length := by
  unfold matchingTasks
  rw [← List.countP_eq_length_filter, ← List.countP_eq_length_filter]
  apply List.countP_mono_left
  intro t _ h
  rw [List.any_cons]
  rw [h]
  simp

theorem innerJoin_length_le (answers : List AnswersRow) (tf : List TaskRow) :
    (innerJoin answers tf).length ≤
      (matchingAnswers answers tf).length * (matchingTasks answers tf).length := by
  induction answers with
  | nil => simp [innerJoin, matchingAnswers]
  | cons a rest ih =>
    have hsplit : (innerJoin (a :: rest) tf).length =
        (match a.taskName with
          | none => ([] : List MergedRow)
          | some k => (tf.filter (fun t : TaskRow => t.taskName = some k)).map
              (mkMerged a k)).length + (innerJoin rest tf).length := by
      unfold innerJoin
      rw [List.flatMap_cons, List.length_append]
    have hMAcons : matchingAnswers (a :: rest) tf =
        if tf.any (fun t => t.taskName = a.taskName) then
          a :: matchingAnswers rest tf
        else matchingAnswers rest tf := by
      unfold matchingAnswers
      rw [List.filter_cons]
    have hMTmono := matchingTasks_cons_le a rest tf
    rw [hsplit]
    cases hk : a.taskName with
    | none =>
      simp only []
      calc ([] : List MergedRow).length + (innerJoin rest tf).length
          = (innerJoin rest tf).length := by simp
        _ ≤ (matchingAnswers rest tf).length * (matchingTasks rest tf).length := ih
        _ ≤ (matchingAnswers (a :: rest) tf).length *
              (matchingTasks (a :: rest) tf).length := by
            apply Nat.mul_le_mul _ hMTmono
            rw [hMAcons]
            split
            · simp
            · exact Nat.le_refl _
    | some k =>
      simp only []
      by_cases hany : tf.any (fun t => t.taskName = some k)
      · have hpred : tf.any (fun t => t.taskName = a.taskName) = true := by
          rw [hk]; exact hany
        have hmatch : ((tf.filter (fun t => t.taskName = some k)).map
            (mkMerged a k)).length ≤ (matchingTasks (a :: rest) tf).length := by
          rw [List.length_map]
          unfold matchingTasks
          rw [← List.countP_eq_length_filter, ← List.countP_eq_length_filter]
          apply List.countP_mono_left
          intro t _ h
          rw [List.any_cons]
          have : (a.taskName = t.taskName : Bool) = true := by
            rw [hk]
            rw [decide_eq_true_eq] at h
            rw [h]
            simp
          rw [this]
          simp
        have hMA : matchingAnswers (a :: rest) tf = a :: matchingAnswers rest tf := by
          rw [hMAcons, if_pos hpred]
        rw [hMA]
        calc ((tf.filter (fun t => t.taskName = some k)).map (mkMerged a k)).length
              + (innerJoin rest tf).length
            ≤ (matchingTasks (a :: rest) tf).length +
              (matchingAnswers rest tf).length * (matchingTasks rest tf).length :=
              Nat.add_le_add hmatch ih
          _ ≤ (matchingTasks (a :: rest) tf).length +
              (matchingAnswers rest tf).length *
                (matchingTasks (a :: rest) tf).length :=
              Nat.add_le_add_left (Nat.mul_le_mul_left _ hMTmono) _
          _ = (a :: matchingAnswers rest tf).length *
                (matchingTasks (a :: rest) tf).length := by
              rw [List.length_cons, Nat.succ_mul, Nat.add_comm]
      · have hnil : tf.filter (fun t => t.taskName = some k) = [] := by
          apply List.filter_eq_nil_iff.mpr
          intro t ht
          intro hc
          apply hany
          apply List.any_eq_true.mpr
          exact ⟨t, ht, hc⟩
        rw [hnil]
        simp only [List.map_nil, List.length_nil, Nat.zero_add]
        calc (innerJoin rest tf).length
            ≤ (matchingAnswers rest tf).length * (matchingTasks rest tf).length := ih
          _ ≤ (matchingAnswers (a :: rest) tf).length *
                (matchingTasks (a :: rest) tf).length := by
              apply Nat.mul_le_mul _ hMTmono
              rw [hMAcons]
              split
              · simp
              · exact Nat.le_refl _

/-- C4 (amended): the merge is a strict inner join on task name; its output
row count is at most the product of the two matching subset sizes (with task
names duplicated on both sides the join is many-to-many, so the minimum of
the sizes is not an upper bound), and an empty intersection raises an error
rather than returning a silently empty result. -/
theorem join_row_count_bound (answers : List AnswersRow) (tasks : TasksTable) :
    (∀ l, df_from_files answers tasks = Except.ok l →
      l = innerJoin answers (tasks.rows.filter (fun t => t.taskName ≠ none)) ∧
      l.length ≤
        (matchingAnswers answers
          (tasks.rows.filter (fun t => t.taskName ≠ none))).length *
        (matchingTasks answers
          (tasks.rows.filter (fun t => t.taskName ≠ none))).length) ∧
    (innerJoin answers (tasks.rows.filter (fun t => t.taskName ≠ none)) = [] →
      ∃ m, df_from_files answers tasks = Except.error m) := by
  constructor
  · intro l hl
    unfold df_from_files at hl
    by_cases hmiss : colsTasks.filter (fun c => ¬ tasks.cols.contains c) ≠ []
    · rw [if_pos hmiss] at hl
      cases hl
    · rw [if_neg hmiss] at hl
      by_cases hempty :
          innerJoin answers (tasks.rows.filter (fun t => t.taskName ≠ none)) = []
      · rw [if_pos hempty] at hl
        cases hl
      · rw [if_neg hempty] at hl
        cases hl
        exact ⟨rfl, innerJoin_length_le _ _⟩
  · intro hempty
    unfold df_from_files
    by_cases hmiss : colsTasks.filter (fun c => ¬ tasks.cols.contains c) ≠ []
    · rw [if_pos hmiss]
      exact ⟨_, rfl⟩
    · rw [if_neg hmiss, if_pos hempty]
      exact ⟨_, rfl⟩

/-- Counterexample to C4 as stated: two answers to one defined task give a
merged table of 2 rows, while the matching subsets have sizes 2 and 1 — the
output exceeds their minimum. -/
theorem join_row_count_min_counterexample :
    (df_from_files twoAnswersOneTask oneTaskTable).map List.length =
      Except.ok 2 ∧
    (matchingAnswers twoAnswersOneTask
      (oneTaskTable.rows.filter (fun t => t.taskName ≠ none))).length = 2 ∧
    (matchingTasks twoAnswersOneTask
      (oneTaskTable.rows.filter (fun t => t.taskName ≠ none))).length = 1 ∧
    ¬ (2 ≤ min 2 1) :=
  ⟨by decide, by decide, by decide, by decide⟩

/-- Witness for the amended C4 at the duplicated-task input. -/
theorem join_row_count_bound_witness :
    innerJoin twoAnswersOneTask
        (oneTaskTable.rows.filter (fun t => t.taskName ≠ none)) =
      innerJoin twoAnswersOneTask
        (oneTaskTable.rows.filter (fun t => t.taskName ≠ none)) ∧
    (innerJoin twoAnswersOneTask
        (oneTaskTable.rows.filter (fun t => t.taskName ≠ none))).length ≤
      (matchingAnswers twoAnswersOneTask
        (oneTaskTable.rows.filter (fun t => t.taskName ≠ none))).length *
      (matchingTasks twoAnswersOneTask
        (oneTaskTable.rows.filter (fun t => t.taskName ≠ none))).length :=
  (join_row_count_bound twoAnswersOneTask oneTaskTable).1 _ (by decide)

/-! ## Claims C6, C9 and C10: the payload assembler -/

theorem buildPayloads_mem {merged : List MergedRow}
    {matrix : Option (List Competency)} {info atype e : String}
    {req : CombinedRequest}
    (h : (e, req) ∈ buildPayloads merged matrix info atype) :
    ∃ first rest, merged.filter (fun r => r.email = e) = first :: rest ∧
      req = buildOne e first (first :: rest) matrix info atype := by
  unfold buildPayloads at h
  rcases List.mem_filterMap.mp h with ⟨e', _, heq⟩
  cases hf : merged.filter (fun r => r.email = e') with
  | nil =>
    rw [hf] at heq
    cases heq
  | cons first rest =>
    rw [hf] at heq
    injection heq with heq2
    have he : e' = e := congrArg Prod.fst heq2
    subst he
    have hr : req = buildOne e' first (first :: rest) matrix info atype :=
      (congrArg Prod.snd heq2).symm
    exact ⟨first, rest, hf, hr⟩

theorem bucket_eq (grp : List MergedRow) (lbl : String) :
    (grp.map normalizeMergedRow).filter (fun r => r.chapter = some lbl) =
      (grp.filter
        (fun r => normalize_spaces (r.chapter.getD "") = lbl)).map
        normalizeMergedRow := by
  rw [List.filter_map]
  congr 1
  apply List.filter_congr
  intro r _
  show decide ((normalizeMergedRow r).chapter = some lbl) =
    decide (normalize_spaces (r.chapter.getD "") = lbl)
  rw [decide_eq_decide]
  constructor
  · intro h
    exact Option.some.inj h
  · intro h
    show some (normalize_spaces (r.chapter.getD "")) = some lbl
    rw [h]

theorem optional_bucket {B : Type} (f : List MergedRow → List B)
    (hf : ∀ x, (f x).length = x.length) (cr : List MergedRow) :
    ((if cr.map normalizeMergedRow = [] then none
      else some (f (cr.map normalizeMergedRow))) = none ↔ cr = []) ∧
    (∀ l, (if cr.map normalizeMergedRow = [] then none
      else some (f (cr.map normalizeMergedRow))) = some l → l ≠ []) := by
  constructor
  · by_cases hc : cr.map normalizeMergedRow = []
    · rw [if_pos hc]
      simp [List.map_eq_nil_iff.mp hc]
    · rw [if_neg hc]
      constructor
      · intro h
        cases h
      · intro hcr
        exact absurd (by rw [hcr]; rfl) hc
  · intro l hl
    by_cases hc : cr.map normalizeMergedRow = []
    · rw [if_pos hc] at hl
      cases hl
    · rw [if_neg hc] at hl
      injection hl with hl
      subst hl
      intro hnil
      apply hc
      have hlen := hf (cr.map normalizeMergedRow)
      rw [hnil] at hlen
      exact List.length_eq_zero.mp hlen.symm

/-- C6: for every participant, each of the five category fields of the
assembled request is `none` exactly when that participant has no merged rows
with the corresponding normalized chapter label, and a populated field is
never the empty list. -/
theorem empty_buckets_are_absent (merged : List MergedRow)
    (matrix : Option (List Competency)) (info atype e : String)
    (req : CombinedRequest)
    (h : (e, req) ∈ buildPayloads merged matrix info atype) :
    ((req.statements = none ↔ chapterRows merged e "Быстрая самооценка" = []) ∧
      (∀ l, req.statements = some l → l ≠ [])) ∧
    ((req.open_questions = none ↔ chapterRows merged e "Открытые вопросы" = []) ∧
      (∀ l, req.open_questions = some l → l ≠ [])) ∧
    ((req.dilemmas = none ↔ chapterRows merged e "Дилеммы" = []) ∧
      (∀ l, req.dilemmas = some l → l ≠ [])) ∧
    ((req.mini_cases = none ↔ chapterRows merged e "Мини кейсы" = []) ∧
      (∀ l, req.mini_cases = some l → l ≠ [])) ∧
    ((req.big_cases = none ↔ chapterRows merged e "Большие кейсы" = []) ∧
      (∀ l, req.big_cases = some l → l ≠ [])) := by
  obtain ⟨first, rest, hf, rfl⟩ := buildPayloads_mem h
  have hb : ∀ lbl : String,
      ((first :: rest).map normalizeMergedRow).filter
        (fun r => r.chapter = some lbl) =
      (chapterRows merged e lbl).map normalizeMergedRow := by
    intro lbl
    rw [bucket_eq]
    unfold chapterRows
    rw [hf]
  have hcase : ∀ x : List MergedRow, (process_case_inputs x).length = x.length := by
    intro x
    simp [process_case_inputs]
  have hstmtlen : ∀ x : List MergedRow,
      (process_statement_inputs x).length = x.length := by
    intro x
    simp [process_statement_inputs]
  have hstmt : (buildOne e first (first :: rest) matrix info atype).statements =
      if (chapterRows merged e "Быстрая самооценка").map normalizeMergedRow = []
      then none
      else some (process_statement_inputs
        ((chapterRows merged e "Быстрая самооценка").map normalizeMergedRow)) := by
    show (if ((first :: rest).map normalizeMergedRow).filter
        (fun r => r.chapter = some "Быстрая самооценка") = [] then none
      else some (process_statement_inputs
        (((first :: rest).map normalizeMergedRow).filter
          (fun r => r.chapter = some "Быстрая самооценка")))) = _
    rw [hb "Быстрая самооценка"]
  have hopen : (buildOne e first (first :: rest) matrix info atype).open_questions =
      if (chapterRows merged e "Открытые вопросы").map normalizeMergedRow = []
      then none
      else some (process_case_inputs
        ((chapterRows merged e "Открытые вопросы").map normalizeMergedRow)) := by
    show (if ((first :: rest).map normalizeMergedRow).filter
        (fun r => r.chapter = some "Открытые вопросы") = [] then none
      else some (process_case_inputs
        (((first :: rest).map normalizeMergedRow).filter
          (fun r => r.chapter = some "Открытые вопросы")))) = _
    rw [hb "Открытые вопросы"]
  have hdil : (buildOne e first (first :: rest) matrix info atype).dilemmas =
      if (chapterRows merged e "Дилеммы").map normalizeMergedRow = []
      then none
      else some (process_case_inputs
        ((chapterRows merged e "Дилеммы").map normalizeMergedRow)) := by
    show (if ((first :: rest).map normalizeMergedRow).filter
        (fun r => r.chapter = some "Дилеммы") = [] then none
      else some (process_case_inputs
        (((first :: rest).map normalizeMergedRow).filter
          (fun r => r.chapter = some "Дилеммы")))) = _
    rw [hb "Дилеммы"]
  have hmini : (buildOne e first (first :: rest) matrix info atype).mini_cases =
      if (chapterRows merged e "Мини кейсы").map normalizeMergedRow = []
      then none
      else some (process_case_inputs
        ((chapterRows merged e "Мини кейсы").map normalizeMergedRow)) := by
    show (if ((first :: rest).map normalizeMergedRow).filter
        (fun r => r.chapter = some "Мини кейсы") = [] then none
      else some (process_case_inputs
        (((first :: rest).map normalizeMergedRow).filter
          (fun r => r.chapter = some "Мини кейсы")))) = _
    rw [hb "Мини кейсы"]
  have hbig : (buildOne e first (first :: rest) matrix info atype).big_cases =
      if (chapterRows merged e "Большие кейсы").map normalizeMergedRow = []
      then none
      else some (process_case_inputs
        ((chapterRows merged e "Большие кейсы").map normalizeMergedRow)) := by
    show (if ((first :: rest).map normalizeMergedRow).filter
        (fun r => r.chapter = some "Большие кейсы") = [] then none
      else some (process_case_inputs
        (((first :: rest).map normalizeMergedRow).filter
          (fun r => r.chapter = some "Большие кейсы")))) = _
    rw [hb "Большие кейсы"]
  refine ⟨⟨?_, ?_⟩, ⟨?_, ?_⟩, ⟨?_, ?_⟩, ⟨?_, ?_⟩, ⟨?_, ?_⟩⟩
  · rw [hstmt]
    exact (optional_bucket process_statement_inputs hstmtlen _).1
  · rw [hstmt]
    exact (optional_bucket process_statement_inputs hstmtlen _).2
  · rw [hopen]
    exact (optional_bucket process_case_inputs hcase _).1
  · rw [hopen]
    exact (optional_bucket process_case_inputs hcase _).2
  · rw [hdil]
    exact (optional_bucket process_case_inputs hcase _).1
  · rw [hdil]
    exact (optional_bucket process_case_inputs hcase _).2
  · rw [hmini]
    exact (optional_bucket process_case_inputs hcase _).1
  · rw [hmini]
    exact (optional_bucket process_case_inputs hcase _).2
  · rw [hbig]
    exact (optional_bucket process_case_inputs hcase _).1
  · rw [hbig]
    exact (optional_bucket process_case_inputs hcase _).2

/-- Witness for C6 (Scenario E): a participant with rows only in the
dilemmas chapter gets `dilemmas` populated and the other four fields absent. -/
theorem empty_buckets_are_absent_witness :
    (buildOne "a@b" dilemmaRow [dilemmaRow] none "" "external").dilemmas ≠ none ∧
    (buildOne "a@b" dilemmaRow [dilemmaRow] none "" "external").statements = none ∧
    (buildOne "a@b" dilemmaRow [dilemmaRow] none "" "external").open_questions = none ∧
    (buildOne "a@b" dilemmaRow [dilemmaRow] none "" "external").mini_cases = none ∧
    (buildOne "a@b" dilemmaRow [dilemmaRow] none "" "external").big_cases = none := by
  have h := empty_buckets_are_absent dilemmaOnlyMerged none "" "external" "a@b"
    (buildOne "a@b" dilemmaRow [dilemmaRow] none "" "external") (by decide)
  refine ⟨?_, ?_, ?_, ?_, ?_⟩
  · intro hn
    have hnil := h.2.2.1.1.mp hn
    revert hnil
    decide
  · exact h.1.1.mpr (by decide)
  · exact h.2.1.1.mpr (by decide)
  · exact h.2.2.2.1.1.mpr (by decide)
  · exact h.2.2.2.2.1.mpr (by decide)

/-- C9 (amended): the assembled `position_title` is always the empty string —
the merge keeps only the six selected answer columns, which exclude
`Позиция`, so the assembler's `first_row.get("Позиция")` lookup always
misses and falls back to the empty-string default. -/
theorem position_title_always_empty (answers : List AnswersRow)
    (tasks : TasksTable) (matrix : Option (List Competency))
    (info atype : String) (out : List (String × CombinedRequest))
    (h : process_all_inputs answers tasks matrix info atype = Except.ok out) :
    ∀ p ∈ out, p.2.position_title = "" := by
  intro p hp
  unfold process_all_inputs at h
  cases hdf : df_from_files answers tasks with
  | error m =>
    rw [hdf] at h
    cases h
  | ok merged =>
    rw [hdf] at h
    simp only [Except.map] at h
    injection h with h
    subst h
    cases p with
    | mk e req =>
      obtain ⟨first, rest, _, rfl⟩ := buildPayloads_mem hp
      rfl

/-- Counterexample to C9 as stated: the participant's first (and only)
source row carries the position `Менеджер`, yet the assembled request's
`position_title` is the empty string — not the position value the row
carries. -/
theorem position_title_counterexample :
    (process_all_inputs positionedAnswers oneTaskTable none "" "external").map
      (fun l => l.map (fun p => p.2.position_title)) = Except.ok [""] ∧
    positionedAnswers.map (fun a => a.poz) = [some "Менеджер"] ∧
    ("" : String) ≠ "Менеджер" :=
  ⟨by decide, by decide, by decide⟩

/-- Witness for the amended C9 at a concrete input. -/
theorem position_title_always_empty_witness :
    ("a@b", buildOne "a@b" dilemmaRow [dilemmaRow]
        none "" "external").2.position_title = "" :=
  position_title_always_empty positionedAnswers oneTaskTable none "" "external"
    [("a@b", buildOne "a@b" dilemmaRow [dilemmaRow] none "" "external")]
    (by decide) _ (by decide)

/-- C10: the assembled `user_name` is the participant's email when the first
merged row's display-name cell is missing or whitespace-only, and the first
row's display name otherwise. -/
theorem user_name_fallback (merged : List MergedRow)
    (matrix : Option (List Competency)) (info atype e : String)
    (req : CombinedRequest)
    (h : (e, req) ∈ buildPayloads merged matrix info atype) :
    ∃ first rest, merged.filter (fun r => r.email = e) = first :: rest ∧
      (first.fio = none → req.user_name = e) ∧
      (∀ s, first.fio = some s → pyStrip s = "" → req.user_name = e) ∧
      (∀ s, first.fio = some s → pyStrip s ≠ "" → req.user_name = s) := by
  obtain ⟨first, rest, hf, rfl⟩ := buildPayloads_mem h
  refine ⟨first, rest, hf, ?_, ?_, ?_⟩
  · intro hn
    show safe_value first.fio e = e
    rw [hn]
    rfl
  · intro s hs hstrip
    show safe_value first.fio e = e
    rw [hs]
    show (if pyStrip s = "" then e else s) = e
    rw [if_pos hstrip]
  · intro s hs hstrip
    show safe_value first.fio e = s
    rw [hs]
    show (if pyStrip s = "" then e else s) = s
    rw [if_neg hstrip]

/-- Witness for C10: a whitespace-only display name falls back to the email. -/
theorem user_name_fallback_witness :
    ∃ first rest,
      blankNameMerged.filter (fun r => r.email = "w@x") = first :: rest ∧
      (first.fio = none →
        (buildOne "w@x" blankNameRow [blankNameRow] none "" "external").user_name
          = "w@x") ∧
      (∀ s, first.fio = some s → pyStrip s = "" →
        (buildOne "w@x" blankNameRow [blankNameRow] none "" "external").user_name
          = "w@x") ∧
      (∀ s, first.fio = some s → pyStrip s ≠ "" →
        (buildOne "w@x" blankNameRow [blankNameRow] none "" "external").user_name
          = s) :=
  user_name_fallback blankNameMerged none "" "external" "w@x"
    (buildOne "w@x" blankNameRow [blankNameRow] none "" "external") (by decide)

/-! ## Claims C3 and C8: the competency matrix builder -/

theorem contains_eq_decide_mem (s : List String) (x : String) :
    s.contains x = decide (x ∈ s) := by
  by_cases h : x ∈ s
  · have hx : s.contains x = true := List.elem_iff.mpr h
    rw [hx]
    simp [h]
  · have hx : s.contains x ≠ true := fun hc => h (List.elem_iff.mp hc)
    rw [Bool.eq_false_iff.mpr hx]
    simp [h]

theorem compStep_skip (acc : List Competency) (r : CompetencyRow)
    (h : rawCompName r = "") : compStep acc r = acc := by
  show (if rawCompName r = "" then acc
    else if acc.any (fun c => c.competency = rawCompName r) then
      appendIndicator (rawCompName r) (indicatorOf r) acc
    else
      acc ++
      [({ competency := rawCompName r,
          competency_description := r.competency_description.getD "",
          weight := weightOf r.weight,
          indicators := [indicatorOf r] } : Competency)]) = acc
  rw [if_pos h]

theorem compStep_seen (acc : List Competency) (r : CompetencyRow)
    (h : rawCompName r ≠ "")
    (h1 : acc.any (fun c => c.competency = rawCompName r)) :
    compStep acc r = appendIndicator (rawCompName r) (indicatorOf r) acc := by
  show (if rawCompName r = "" then acc
    else if acc.any (fun c => c.competency = rawCompName r) then
      appendIndicator (rawCompName r) (indicatorOf r) acc
    else
      acc ++
      [({ competency := rawCompName r,
          competency_description := r.competency_description.getD "",
          weight := weightOf r.weight,
          indicators := [indicatorOf r] } : Competency)]) = _
  rw [if_neg h, if_pos h1]

theorem compStep_new (acc : List Competency) (r : CompetencyRow)
    (h : rawCompName r ≠ "")
    (h1 : ¬ acc.any (fun c => c.competency = rawCompName r)) :
    compStep acc r =
      acc ++
      [({ competency := rawCompName r,
          competency_description := r.competency_description.getD "",
          weight := weightOf r.weight,
          indicators := [indicatorOf r] } : Competency)] := by
  show (if rawCompName r = "" then acc
    else if acc.any (fun c => c.competency = rawCompName r) then
      appendIndicator (rawCompName r) (indicatorOf r) acc
    else
      acc ++
      [({ competency := rawCompName r,
          competency_description := r.competency_description.getD "",
          weight := weightOf r.weight,
          indicators := [indicatorOf r] } : Competency)]) = _
  rw [if_neg h, if_neg h1]

theorem firstSeenAux_congr :
    ∀ (l s1 s2 : List String),
      (∀ x, s1.contains x = s2.contains x) →
      firstSeenAux s1 l = firstSeenAux s2 l := by
  intro l
  induction l with
  | nil => intro s1 s2 _; rfl
  | cons n ns ih =>
    intro s1 s2 h
    simp only [firstSeenAux, h n]
    by_cases hc : s2.contains n
    · rw [if_pos hc, if_pos hc]
      exact ih s1 s2 h
    · rw [if_neg hc, if_neg hc]
      congr 1
      apply ih
      intro x
      rw [List.contains_cons, List.contains_cons, h x]

theorem appendIndicator_map_name (nm : String) (ind : Indicator) :
    ∀ acc : List Competency,
      (appendIndicator nm ind acc).map (fun c => c.competency) =
        acc.map (fun c => c.competency) := by
  intro acc
  induction acc with
  | nil => rfl
  | cons c cs ih =>
    simp only [appendIndicator]
    by_cases h : c.competency = nm
    · rw [if_pos h]
      rfl
    · rw [if_neg h]
      simp only [List.map_cons, ih]

theorem foldl_compStep_names :
    ∀ (l : List CompetencyRow) (acc : List Competency),
      (l.foldl compStep acc).map (fun c => c.competency) =
        acc.map (fun c => c.competency) ++
          firstSeenAux (acc.map (fun c => c.competency))
            ((l.map rawCompName).filter (· ≠ "")) := by
  intro l
  induction l with
  | nil =>
    intro acc
    simp [firstSeenAux]
  | cons r rs ih =>
    intro acc
    rw [List.foldl_cons, ih (compStep acc r), List.map_cons, List.filter_cons]
    by_cases h0 : rawCompName r = ""
    · have hpred : (decide (rawCompName r ≠ "")) = false := by
        simp [h0]
      rw [hpred, compStep_skip acc r h0]
      simp
    · have hpred : (decide (rawCompName r ≠ "")) = true := by
        simp [h0]
      rw [hpred]
      simp only [if_true]
      by_cases h1 : acc.any (fun c => c.competency = rawCompName r)
      · have hcont : (acc.map (fun c => c.competency)).contains
            (rawCompName r) = true := by
          rcases List.any_eq_true.mp h1 with ⟨c, hc, hcn⟩
          rw [contains_eq_decide_mem]
          have hm : rawCompName r ∈ acc.map (fun c => c.competency) :=
            List.mem_map.mpr ⟨c, hc, (by simpa using hcn)⟩
          simp [hm]
        rw [compStep_seen acc r h0 h1, appendIndicator_map_name]
        show _ = _ ++ firstSeenAux _ (rawCompName r :: _)
        simp only [firstSeenAux, hcont, if_true]
      · have hcont : (acc.map (fun c => c.competency)).contains
            (rawCompName r) = false := by
          rw [contains_eq_decide_mem]
          have hm : rawCompName r ∉ acc.map (fun c => c.competency) := by
            intro hm
            rcases List.mem_map.mp hm with ⟨c, hc, hcn⟩
            exact h1 (List.any_eq_true.mpr ⟨c, hc, by simp [hcn]⟩)
          simp [hm]
        rw [compStep_new acc r h0 h1, List.map_append]
        show _ = _ ++ firstSeenAux _ (rawCompName r :: _)
        simp only [firstSeenAux, hcont, Bool.false_eq_true, if_false]
        rw [List.append_assoc]
        congr 1
        show [rawCompName r] ++ _ = _
        rw [List.singleton_append]
        congr 1
        apply firstSeenAux_congr
        intro x
        rw [contains_eq_decide_mem, contains_eq_decide_mem]
        apply decide_eq_decide.mpr
        simp only [List.map_cons, List.map_nil, List.mem_append,
          List.mem_singleton, List.mem_cons]
        tauto

theorem indLen_nil (nm : String) : indLen [] nm = 0 := rfl

theorem indLen_cons (c : Competency) (cs : List Competency) (nm : String) :
    indLen (c :: cs) nm =
      (if c.competency = nm then c.indicators.length else 0) + indLen cs nm := by
  unfold indLen
  rw [List.filter_cons]
  by_cases h : c.competency = nm
  · simp [h]
  · simp [h]

theorem indLen_append (l m : List Competency) (nm : String) :
    indLen (l ++ m) nm = indLen l nm + indLen m nm := by
  unfold indLen
  rw [List.filter_append, List.map_append, List.sum_append]

theorem indLen_appendIndicator (nm' : String) (ind : Indicator) :
    ∀ (acc : List Competency) (nm : String),
      acc.any (fun c => c.competency = nm') →
      indLen (appendIndicator nm' ind acc) nm =
        indLen acc nm + (if nm' = nm then 1 else 0) := by
  intro acc
  induction acc with
  | nil =>
    intro nm h
    simp at h
  | cons c cs ih =>
    intro nm h
    simp only [appendIndicator]
    by_cases hc : c.competency = nm'
    · rw [if_pos hc, indLen_cons, indLen_cons]
      by_cases hn : c.competency = nm
      · have hnm : nm' = nm := by rw [← hc, hn]
        simp [hn, hnm, List.length_append]
        omega
      · have hnm : nm' ≠ nm := fun e => hn (hc.trans e)
        simp [hn, hnm]
    · rw [if_neg hc, indLen_cons, indLen_cons]
      have hcs : cs.any (fun c => c.competency = nm') = true := by
        rcases List.any_eq_true.mp h with ⟨d, hd, hdn⟩
        rcases List.mem_cons.mp hd with rfl | hd'
        · exact absurd (by simpa using hdn) hc
        · exact List.any_eq_true.mpr ⟨d, hd', hdn⟩
      rw [ih nm hcs]
      omega

theorem indLen_foldl :
    ∀ (l : List CompetencyRow) (acc : List Competency) (nm : String),
      nm ≠ "" →
      indLen (l.foldl compStep acc) nm =
        indLen acc nm + l.countP (fun r => rawCompName r = nm) := by
  intro l
  induction l with
  | nil =>
    intro acc nm _
    simp [List.countP_nil]
  | cons r rs ih =>
    intro acc nm hnm
    rw [List.foldl_cons, ih (compStep acc r) nm hnm, List.countP_cons]
    by_cases h0 : rawCompName r = ""
    · rw [compStep_skip acc r h0]
      have hp : (decide (rawCompName r = nm)) = false := by
        rw [h0]
        simp
        exact fun e => hnm e.symm
      rw [hp]
      simp
    · by_cases h1 : acc.any (fun c => c.competency = rawCompName r)
      · rw [compStep_seen acc r h0 h1,
          indLen_appendIndicator (rawCompName r) (indicatorOf r) acc nm h1]
        by_cases he : rawCompName r = nm
        · simp [he]
          omega
        · simp [he]
      · rw [compStep_new acc r h0 h1, indLen_append, indLen_cons, indLen_nil]
        by_cases he : rawCompName r = nm
        · simp [he]
          omega
        · simp [he]

theorem firstSeenAux_nodup :
    ∀ (l seen : List String), (firstSeenAux seen l).Nodup := by
  intro l
  induction l with
  | nil => intro seen; exact List.nodup_nil
  | cons n ns ih =>
    intro seen
    simp only [firstSeenAux]
    by_cases h : seen.contains n
    · rw [if_pos h]
      exact ih seen
    · rw [if_neg h]
      apply List.nodup_cons.mpr
      refine ⟨?_, ih (n :: seen)⟩
      intro hm
      have hcon := ((mem_firstSeenAux ns (n :: seen)).mp hm).2
      rw [List.contains_cons] at hcon
      simp at hcon

theorem indLen_of_mem_nodup :
    ∀ (out : List Competency) (c : Competency),
      (out.map (fun c => c.competency)).Nodup → c ∈ out →
      indLen out c.competency = c.indicators.length := by
  intro out
  induction out with
  | nil =>
    intro c _ hc
    cases hc
  | cons d ds ih =>
    intro c hnd hc
    rw [indLen_cons]
    rcases List.mem_cons.mp hc with rfl | hc'
    · rw [if_pos rfl]
      have hzero : indLen ds c.competency = 0 := by
        unfold indLen
        have hnilf : ds.filter (fun x => x.competency = c.competency) = [] := by
          apply List.filter_eq_nil_iff.mpr
          intro x hx hxeq
          have hmem : c.competency ∈ ds.map (fun c => c.competency) :=
            List.mem_map.mpr ⟨x, hx, by simpa using hxeq⟩
          exact (List.nodup_cons.mp (by simpa using hnd)).1 hmem
        rw [hnilf]
        rfl
      rw [hzero]
      omega
    · have hd : d.competency ≠ c.competency := by
        intro he
        have hmem : c.competency ∈ ds.map (fun c => c.competency) :=
          List.mem_map.mpr ⟨c, hc', rfl⟩
        rw [← he] at hmem
        exact (List.nodup_cons.mp (by simpa using hnd)).1 hmem
      rw [if_neg hd, ih c (List.nodup_cons.mp (by simpa using hnd)).2 hc']
      omega

/-- C3: the matrix builder produces exactly one Competency per distinct
non-empty post-normalization competency name, in first-seen order, and each
entry's indicator list length equals the number of source rows bearing that
name (rows with an empty normalized name are skipped). -/
theorem matrix_grouping (rows : List CompetencyRow) :
    (process_competency_rows rows).map (fun c => c.competency) =
      firstSeen ((rows.map normName).filter (· ≠ "")) ∧
    ∀ c ∈ process_competency_rows rows,
      c.indicators.length =
        (rows.filter (fun r => normName r = c.competency)).length := by
  have hmapnames : (rows.map normalizeCompRow).map rawCompName =
      rows.map normName := by
    rw [List.map_map]
    rfl
  have hnames := foldl_compStep_names (rows.map normalizeCompRow) []
  rw [hmapnames] at hnames
  have hfs : (process_competency_rows rows).map (fun c => c.competency) =
      firstSeen ((rows.map normName).filter (· ≠ "")) := by
    simpa [firstSeen] using hnames
  refine ⟨hfs, ?_⟩
  intro c hc
  have hmemname : c.competency ∈ (rows.map normName).filter (· ≠ "") := by
    have hmem : c.competency ∈
        (process_competency_rows rows).map (fun c => c.competency) :=
      List.mem_map.mpr ⟨c, hc, rfl⟩
    rw [hfs] at hmem
    exact mem_firstSeen.mp hmem
  have hne : c.competency ≠ "" := by
    have := (List.mem_filter.mp hmemname).2
    simpa using this
  have hnodup : ((process_competency_rows rows).map
      (fun c => c.competency)).Nodup := by
    rw [hfs]
    exact firstSeenAux_nodup _ []
  have hlen := indLen_of_mem_nodup (process_competency_rows rows) c hnodup hc
  have hcount := indLen_foldl (rows.map normalizeCompRow) [] c.competency hne
  rw [← hlen]
  show indLen ((rows.map normalizeCompRow).foldl compStep []) c.competency = _
  rw [hcount, indLen_nil]
  have hcp : (rows.map normalizeCompRow).countP
      (fun r => rawCompName r = c.competency) =
      rows.countP (fun r => normName r = c.competency) := by
    rw [List.countP_map]
    rfl
  rw [hcp, List.countP_eq_length_filter]
  omega

/-- Witness for C3: the two-indicator sample competency's indicator count
equals the number of source rows bearing its name. -/
theorem matrix_grouping_witness :
    sampleCompetency.indicators.length =
      (sampleCompetencyRows.filter
        (fun r => normName r = sampleCompetency.competency)).length :=
  (matrix_grouping sampleCompetencyRows).2 sampleCompetency (by decide)

theorem appendIndicator_mem (nm : String) (ind : Indicator) :
    ∀ (acc : List Competency) (x : Competency),
      x ∈ appendIndicator nm ind acc →
      ∃ y ∈ acc, y.competency = x.competency ∧ y.weight = x.weight := by
  intro acc
  induction acc with
  | nil =>
    intro x hx
    cases hx
  | cons c cs ih =>
    intro x hx
    simp only [appendIndicator] at hx
    by_cases h : c.competency = nm
    · rw [if_pos h] at hx
      rcases List.mem_cons.mp hx with rfl | hx'
      · exact ⟨c, List.mem_cons_self _ _, rfl, rfl⟩
      · exact ⟨x, List.mem_cons_of_mem _ hx', rfl, rfl⟩
    · rw [if_neg h] at hx
      rcases List.mem_cons.mp hx with rfl | hx'
      · exact ⟨x, List.mem_cons_self _ _, rfl, rfl⟩
      · rcases ih x hx' with ⟨y, hy, h1, h2⟩
        exact ⟨y, List.mem_cons_of_mem _ hy, h1, h2⟩

theorem compStep_name_superset (acc : List Competency) (r : CompetencyRow) :
    ∀ y ∈ acc, ∃ z ∈ compStep acc r, z.competency = y.competency := by
  intro y hy
  by_cases h0 : rawCompName r = ""
  · rw [compStep_skip acc r h0]
    exact ⟨y, hy, rfl⟩
  · by_cases h1 : acc.any (fun c => c.competency = rawCompName r)
    · rw [compStep_seen acc r h0 h1]
      have hm : y.competency ∈
          (appendIndicator (rawCompName r) (indicatorOf r) acc).map
            (fun c => c.competency) := by
        rw [appendIndicator_map_name]
        exact List.mem_map.mpr ⟨y, hy, rfl⟩
      rcases List.mem_map.mp hm with ⟨z, hz, hzn⟩
      exact ⟨z, hz, hzn⟩
    · rw [compStep_new acc r h0 h1]
      exact ⟨y, List.mem_append.mpr (Or.inl hy), rfl⟩

theorem foldl_compStep_weights :
    ∀ (l : List CompetencyRow) (acc : List Competency) (c : Competency),
      c ∈ l.foldl compStep acc →
      (∃ c0 ∈ acc, c0.competency = c.competency ∧ c0.weight = c.weight) ∨
      (c.competency ≠ "" ∧ (∀ c0 ∈ acc, c0.competency ≠ c.competency) ∧
        ∃ r, l.find? (fun r => rawCompName r = c.competency) = some r ∧
          c.weight = weightOf r.weight) := by
  intro l
  induction l with
  | nil =>
    intro acc c hc
    exact Or.inl ⟨c, hc, rfl, rfl⟩
  | cons r rs ih =>
    intro acc c hc
    rw [List.foldl_cons] at hc
    rcases ih (compStep acc r) c hc with
      ⟨c0, hc0, hn, hw⟩ | ⟨hne, hnot, r', hfind, hw⟩
    · by_cases h0 : rawCompName r = ""
      · rw [compStep_skip acc r h0] at hc0
        exact Or.inl ⟨c0, hc0, hn, hw⟩
      · by_cases h1 : acc.any (fun x => x.competency = rawCompName r)
        · rw [compStep_seen acc r h0 h1] at hc0
          rcases appendIndicator_mem _ _ acc c0 hc0 with ⟨y, hy, hy1, hy2⟩
          exact Or.inl ⟨y, hy, hy1.trans hn, hy2.trans hw⟩
        · rw [compStep_new acc r h0 h1] at hc0
          rcases List.mem_append.mp hc0 with hin | hnew
          · exact Or.inl ⟨c0, hin, hn, hw⟩
          · have hc0eq := List.mem_singleton.mp hnew
            subst hc0eq
            have hn' : rawCompName r = c.competency := hn
            have hw' : weightOf r.weight = c.weight := hw
            refine Or.inr ⟨by rw [← hn']; exact h0, ?_, r, ?_, hw'.symm⟩
            · intro y hy hyc
              apply h1
              apply List.any_eq_true.mpr
              refine ⟨y, hy, ?_⟩
              simp [hyc, hn']
            · have hp : (fun x => (rawCompName x = c.competency : Bool)) r
                  = true := by
                simp [hn']
              exact List.find?_cons_of_pos _ hp
    · have hnot' : ∀ y ∈ acc, y.competency ≠ c.competency := by
        intro y hy he
        rcases compStep_name_superset acc r y hy with ⟨z, hz, hzn⟩
        exact hnot z hz (hzn.trans he)
      have hpredr : rawCompName r ≠ c.competency := by
        intro he
        by_cases h0 : rawCompName r = ""
        · apply hne
          rw [← he, h0]
        · by_cases h1 : acc.any (fun x => x.competency = rawCompName r)
          · rcases List.any_eq_true.mp h1 with ⟨y, hy, hyn⟩
            have hyn' : y.competency = rawCompName r := by simpa using hyn
            rcases compStep_name_superset acc r y hy with ⟨z, hz, hzn⟩
            apply hnot z hz
            rw [hzn, hyn', he]
          · have hzin : ∃ z ∈ compStep acc r,
                z.competency = rawCompName r := by
              rw [compStep_new acc r h0 h1]
              exact ⟨_, List.mem_append.mpr
                (Or.inr (List.mem_singleton.mpr rfl)), rfl⟩
            rcases hzin with ⟨z, hz, hzn⟩
            exact hnot z hz (hzn.trans he)
      refine Or.inr ⟨hne, hnot', r', ?_, hw⟩
      have hp : (decide (rawCompName r = c.competency)) = false := by
        simp [hpredr]
      show List.find? (fun x => (rawCompName x = c.competency : Bool))
        (r :: rs) = some r'
      simp only [List.find?]
      rw [hp]
      exact hfind

/-- C8: the weight of a built Competency is taken from the first source row
bearing its (normalized) name, parsed as a Python float with the 50.0
fallback when the conversion raises; later rows of the same competency are
not consulted. -/
theorem weight_from_first_row (rows : List CompetencyRow) (c : Competency)
    (hc : c ∈ process_competency_rows rows) :
    ∃ r, rows.find? (fun r => normName r = c.competency) = some r ∧
      c.weight = weightOf r.weight ∧
      (∀ s, r.weight = some s → pyFloat s = none →
        c.weight = PyFloat.val 50 1) := by
  rcases foldl_compStep_weights (rows.map normalizeCompRow) [] c hc with
    ⟨c0, h0, -, -⟩ | ⟨-, -, r', hfind, hw⟩
  · cases h0
  · rw [List.find?_map] at hfind
    have hfind2 : (rows.find? (fun r => normName r = c.competency)).map
        normalizeCompRow = some r' := hfind
    rcases Option.map_eq_some'.mp hfind2 with ⟨r0, hr0, hr0'⟩
    refine ⟨r0, hr0, ?_, ?_⟩
    · rw [hw, ← hr0']
      rfl
    · intro s hs hpf
      rw [hw, ← hr0']
      show weightOf r0.weight = _
      rw [hs]
      show (pyFloat s).getD (PyFloat.val 50 1) = _
      rw [hpf]
      rfl

/-- Witness for C8: the sample competency's weight comes from its first row
(weight cell `"30"`), and an unparsable weight falls back to 50. -/
theorem weight_from_first_row_witness :
    ∃ r, sampleCompetencyRows.find?
        (fun r => normName r = sampleCompetency.competency) = some r ∧
      sampleCompetency.weight = weightOf r.weight ∧
      (∀ s, r.weight = some s → pyFloat s = none →
        sampleCompetency.weight = PyFloat.val 50 1) :=
  weight_from_first_row sampleCompetencyRows sampleCompetency (by decide)
